import Mathlib

/-!
Shallow embedding of the `history` navigation library
(`packages/history/history.ts`): the path codec, the event registry,
the in-memory history backend and the browser backend's POP-blocking
handler, together with theorems about the spec's claims.

JS strings are modelled as `List Char`; JS numbers that hold stack
indices or deltas are modelled as `Int`; `undefined` is modelled with
`Option`.  The random key generator `createKey` is modelled as a
counter that yields a fresh `Nat` on every call (all it must provide
is that each generated key is distinct from every earlier one).
-/

namespace HistorySpec

/-- JS strings, modelled as lists of characters. -/
abbrev Str := List Char

/-! ## Path codec (`parsePath` / `createPath`) -/

/-- The pieces of a URL path (`PathPieces` in the source).  A missing
field is genuinely absent (`none`), matching the source where
`parsePath` only assigns the properties it found. -/
structure PathPieces where
  pathname : Option Str
  search : Option Str
  hash : Option Str
deriving Repr, DecidableEq

/-- `breakAt c s` mirrors the JS idiom
`i = s.indexOf(c); [s.substr(0, i), s.substr(i)]`: it returns the part
of `s` strictly before the first occurrence of `c` and the part from
that occurrence on (the second component is `[]` when `c` does not
occur, matching `indexOf` returning `-1`). -/
def breakAt (c : Char) : Str → Str × Str
  | [] => ([], [])
  | x :: xs =>
    if x = c then ([], x :: xs)
    else
      let p := breakAt c xs
      (x :: p.1, p.2)

/-- `parsePath` from the source: split off the hash at the first `#`
(inclusive), then the search at the first `?` (inclusive); whatever
remains, if non-empty, is the pathname. -/
def parsePath (path : Str) : PathPieces :=
  if path = [] then ⟨none, none, none⟩
  else
    let h := breakAt '#' path
    let hash := if h.2 = [] then none else some h.2
    let s := breakAt '?' h.1
    let search := if s.2 = [] then none else some s.2
    let pathname := if s.1 = [] then none else some s.1
    ⟨pathname, search, hash⟩

/-- `createPath` from the source: `(pathname ?? slash) ++ (search ?? empty)
++ (hash ?? empty)`. -/
def createPath (p : PathPieces) : Str :=
  p.pathname.getD ['/'] ++ p.search.getD [] ++ p.hash.getD []

/-- A valid path string: by the convention stated in the spec's data
model, a pathname is non-empty and starts with `/`. -/
def ValidPath (p : Str) : Prop := p.head? = some '/'

instance (p : Str) : Decidable (ValidPath p) := by
  unfold ValidPath; infer_instance

theorem breakAt_append (c : Char) (l : Str) :
    (breakAt c l).1 ++ (breakAt c l).2 = l := by
  induction l with
  | nil => rfl
  | cons x xs ih =>
    by_cases hx : x = c
    · simp [breakAt, hx]
    · simp [breakAt, hx, ih]

theorem breakAt_cons_ne (c x : Char) (xs : Str) (h : x ≠ c) :
    breakAt c (x :: xs) = (x :: (breakAt c xs).1, (breakAt c xs).2) := by
  simp [breakAt, h]

/-- C1: for every valid path string `p` (one whose pathname piece is
present, i.e. `p` starts with `/` per the spec's convention),
`createPath (parsePath p) = p`. -/
theorem createPath_parsePath (p : Str) (hv : ValidPath p) :
    createPath (parsePath p) = p := by
  obtain ⟨t, rfl⟩ : ∃ t, p = '/' :: t := by
    cases p with
    | nil => simp [ValidPath] at hv
    | cons x xs =>
      simp [ValidPath] at hv
      exact ⟨xs, by simp [hv]⟩
  have hne : ('/' : Char) :: t ≠ [] := by simp
  have h1 : breakAt '#' ('/' :: t) =
      ('/' :: (breakAt '#' t).1, (breakAt '#' t).2) :=
    breakAt_cons_ne _ _ _ (by decide)
  have h2 : breakAt '?' ('/' :: (breakAt '#' t).1) =
      ('/' :: (breakAt '?' (breakAt '#' t).1).1,
        (breakAt '?' (breakAt '#' t).1).2) :=
    breakAt_cons_ne _ _ _ (by decide)
  have hA := breakAt_append '#' t
  have hB := breakAt_append '?' (breakAt '#' t).1
  unfold parsePath
  rw [if_neg hne]
  simp only [h1, h2]
  unfold createPath
  by_cases hh : (breakAt '#' t).2 = [] <;>
    by_cases hs : (breakAt '?' (breakAt '#' t).1).2 = [] <;>
      simp [hh, hs, breakAt_append]
  · rw [hs, List.append_nil] at hB
    rw [hh, List.append_nil] at hA
    rw [hB, hA]
  · rw [hh, List.append_nil] at hA
    exact hA
  · rw [hs, List.append_nil] at hB
    rw [hB, hA]

/-- Witness for C1 at the concrete path `/a?b#c`. -/
theorem createPath_parsePath_witness :
    ValidPath ['/', 'a', '?', 'b', '#', 'c'] ∧
      createPath (parsePath ['/', 'a', '?', 'b', '#', 'c']) =
        ['/', 'a', '?', 'b', '#', 'c'] :=
  ⟨by decide, createPath_parsePath _ (by decide)⟩

/-! ## Location data model -/

/-- The `Action` enumeration from the source. -/
inductive Action
  | pop
  | push
  | replace
deriving Repr, DecidableEq

/-- A `Location`: path pieces, opaque state and a key.  The opaque
state is modelled as `Option Nat` (`none` = JS `undefined`); keys are
the `Nat`s produced by the key-generator counter. -/
structure Location where
  pathname : Str
  search : Str
  hash : Str
  state : Option Nat
  key : Nat
deriving Repr, DecidableEq

/-- A `to` argument: either a path string or a pieces object. -/
inductive To
  | path (p : Str)
  | pieces (p : PathPieces)
deriving Repr, DecidableEq

/-- `typeof to === string ? parsePath(to) : to` from the source. -/
def resolveTo : To → PathPieces
  | .path p => parsePath p
  | .pieces p => p

/-- An `Update` delivered to listeners.  The location is an `Option`
because the in-memory backend can pass `entries[nextIndex]`, which is
JS `undefined` when the entry array is empty. -/
structure Update where
  action : Action
  location : Option Location
deriving Repr, DecidableEq

/-- `getNextLocation(to, state)` from the source:
`Object.assign({}, location, pieces, { state, key: createKey() })` —
each piece missing from `to` keeps the current location's value, the
state is always overwritten, and the key is freshly generated (here:
passed in by the caller from the key counter). -/
def getNextLocation (cur : Location) (dest : To) (st : Option Nat) (key : Nat) :
    Location :=
  let p := resolveTo dest
  { pathname := p.pathname.getD cur.pathname
    search := p.search.getD cur.search
    hash := p.hash.getD cur.hash
    state := st
    key := key }

/-! ## In-memory backend -/

/-- The operations a caller can invoke on a history instance (the
`to`/`state`/`n` arguments captured, as the source's retry closures
capture them). -/
inductive Op
  | push (dest : To) (st : Option Nat)
  | replace (dest : To) (st : Option Nat)
  | go (n : Int)
  | back
  | forward
deriving Repr, DecidableEq

/-- A `Transition` handed to blockers of the in-memory history: the
update plus the retry closure, which re-invokes the very same
operation. -/
structure MemTransition where
  action : Action
  location : Option Location
  retryOp : Op
deriving Repr, DecidableEq

/-- The in-memory history's private state: the entry array, the index,
the observable cursor (action, location), the number of registered
blockers, and the key-generator counter. -/
structure MemState where
  entries : List Location
  index : Int
  action : Action
  location : Option Location
  blockers : Nat
  nextKey : Nat
deriving Repr, DecidableEq

/-- The result of one engine call: the state afterwards, the list of
arguments passed to `listeners.call`, and the transition passed to
`blockers.call` when the operation was blocked. -/
structure StepResult where
  state : MemState
  updates : List Update
  blockedTx : Option MemTransition
deriving Repr, DecidableEq

/-- `clamp` from the source: `Math.min(Math.max(n, lowerBound), upperBound)`. -/
def clamp (n lowerBound upperBound : Int) : Int :=
  min (max n lowerBound) upperBound

/-- JS array read `l[i]`: `undefined` (`none`) when `i` is negative or
past the end. -/
def nthJS (l : List Location) (i : Int) : Option Location :=
  if 0 ≤ i then l[i.toNat]? else none

/-- JS array element write `l[i] = v`: overwrites in place when `i` is
a valid element index; a negative `i` creates a plain property on the
array object and leaves the elements unchanged. -/
def setJS (l : List Location) (i : Int) (v : Location) : List Location :=
  if 0 ≤ i then l.set i.toNat v else l

/-- `entries.splice(i, entries.length, v)` from `push`: delete every
element from position `i` on and insert `v` there.  JS `splice` clamps
a negative start to `max(length + i, 0)` and a too-large start to the
length (the `take` already does the latter). -/
def spliceAllJS (l : List Location) (i : Int) (v : Location) : List Location :=
  let start := if i < 0 then max ((l.length : Int) + i) 0 else i
  l.take start.toNat ++ [v]

/-- One initial entry of `createMemoryHistory`:
`Object.assign({ pathname, search, hash, state, key: createKey() }, pieces)`. -/
def initLocation (key : Nat) (entry : To) : Location :=
  let p := resolveTo entry
  { pathname := p.pathname.getD ['/']
    search := p.search.getD []
    hash := p.hash.getD []
    state := none
    key := key }

/-- `createMemoryHistory({ initialEntries, initialIndex })` from the
source: map each initial entry to a location (consuming one fresh key
each), clamp the initial index into `[0, entries.length - 1]`, start
with action `Pop` and `location = entries[index]`. -/
def createMemoryHistory (initialEntries : List To) (initialIndex : Int) :
    MemState :=
  let entries := initialEntries.enum.map fun p => initLocation p.1 p.2
  let index := clamp initialIndex 0 ((entries.length : Int) - 1)
  { entries := entries
    index := index
    action := .pop
    location := nthJS entries index
    blockers := 0
    nextKey := initialEntries.length }

/-- `history.block(blocker)` from the source: registers one more
blocker (`blockers.push(blocker)`). -/
def memBlock (s : MemState) : MemState :=
  { s with blockers := s.blockers + 1 }

/-- `go(n)` of the in-memory history.  `allowTx` lets the transition
through exactly when no blocker is registered; otherwise it fans the
transition out to the blockers and the operation is not applied. -/
def goStep (s : MemState) (n : Int) : StepResult :=
  let nextIndex := clamp (s.index + n) 0 ((s.entries.length : Int) - 1)
  let nextLocation := nthJS s.entries nextIndex
  if s.blockers ≠ 0 then
    { state := s
      updates := []
      blockedTx := some ⟨Action.pop, nextLocation, Op.go n⟩ }
  else
    { state := { s with index := nextIndex, action := .pop,
                        location := nextLocation }
      updates := [⟨Action.pop, nextLocation⟩]
      blockedTx := none }

/-- One call of `push` / `replace` / `go` / `back` / `forward` on the
in-memory history.  The `Except` models a thrown JS exception: `push`
and `replace` read `location.pathname` of the *current* location (in
their `warning` call), which throws a TypeError when the cursor is
`undefined` (possible only when the entry array is empty). -/
def memStep (s : MemState) : Op → Except Unit StepResult
  | .push dest st =>
    match s.location with
    | none => .error ()
    | some cur =>
      let nextLocation := getNextLocation cur dest st s.nextKey
      let s1 := { s with nextKey := s.nextKey + 1 }
      if s1.blockers ≠ 0 then
        .ok { state := s1
              updates := []
              blockedTx := some ⟨Action.push, some nextLocation, Op.push dest st⟩ }
      else
        .ok { state := { s1 with
                index := s1.index + 1
                entries := spliceAllJS s1.entries (s1.index + 1) nextLocation
                action := .push
                location := some nextLocation }
              updates := [⟨Action.push, some nextLocation⟩]
              blockedTx := none }
  | .replace dest st =>
    match s.location with
    | none => .error ()
    | some cur =>
      let nextLocation := getNextLocation cur dest st s.nextKey
      let s1 := { s with nextKey := s.nextKey + 1 }
      if s1.blockers ≠ 0 then
        .ok { state := s1
              updates := []
              blockedTx := some ⟨Action.replace, some nextLocation,
                Op.replace dest st⟩ }
      else
        .ok { state := { s1 with
                entries := setJS s1.entries s1.index nextLocation
                action := .replace
                location := some nextLocation }
              updates := [⟨Action.replace, some nextLocation⟩]
              blockedTx := none }
  | .go n => .ok (goStep s n)
  | .back => .ok (goStep s (-1))
  | .forward => .ok (goStep s 1)

/-- Run a sequence of operations; an operation that throws leaves the
state unchanged (it never throws on well-formed states). -/
def runOps (s : MemState) : List Op → MemState
  | [] => s
  | op :: rest =>
    match memStep s op with
    | .ok r => runOps r.state rest
    | .error _ => runOps s rest

/-- Well-formedness of an in-memory history state: the entry array is
non-empty, the index is a valid position, the observable cursor
location is the entry at the index, and every stored key is older than
the key counter (so freshly generated keys are never reused). -/
def WF (s : MemState) : Prop :=
  s.entries ≠ [] ∧ 0 ≤ s.index ∧ s.index < (s.entries.length : Int) ∧
    s.location = nthJS s.entries s.index ∧
    ∀ l ∈ s.entries, l.key < s.nextKey

instance (s : MemState) : Decidable (WF s) := by
  unfold WF; infer_instance

/-! ## Well-formedness lemmas for the in-memory backend -/

theorem nthJS_eq_some (l : List Location) (i : Int) (h0 : 0 ≤ i)
    (h1 : i < (l.length : Int)) :
    ∃ loc, nthJS l i = some loc ∧ loc ∈ l := by
  have hlt : i.toNat < l.length := by omega
  exact ⟨l[i.toNat], by simp [nthJS, h0, List.getElem?_eq_getElem hlt],
    List.getElem_mem hlt⟩

theorem wf_createMemoryHistory (inits : List To) (i0 : Int)
    (h : inits ≠ []) : WF (createMemoryHistory inits i0) := by
  have hpos : 0 < inits.length := List.length_pos.mpr h
  refine ⟨?_, ?_, ?_, rfl, ?_⟩
  · intro hnil
    have hlen := congrArg List.length hnil
    simp only [createMemoryHistory, List.length_map, List.enum_length,
      List.length_nil] at hlen
    omega
  · simp only [createMemoryHistory, clamp, List.length_map, List.enum_length]
    omega
  · simp only [createMemoryHistory, clamp, List.length_map, List.enum_length]
    omega
  · intro l hl
    simp only [createMemoryHistory] at hl ⊢
    rcases List.mem_map.mp hl with ⟨⟨i, e⟩, hm, rfl⟩
    have hi := List.mem_enumFrom (by simpa [List.enum] using hm)
    simp only [initLocation]
    omega

theorem wf_goStep (s : MemState) (n : Int) (h : WF s) :
    WF (goStep s n).state := by
  obtain ⟨hne, h0, h1, hloc, hkeys⟩ := h
  have hlenpos : 0 < s.entries.length := List.length_pos.mpr hne
  by_cases hb : s.blockers ≠ 0
  · simp only [goStep, if_pos hb]
    exact ⟨hne, h0, h1, hloc, hkeys⟩
  · simp only [goStep, if_neg hb]
    refine ⟨hne, ?_, ?_, rfl, hkeys⟩
    · simp only [clamp]
      omega
    · simp only [clamp]
      omega

theorem wf_memStep (s : MemState) (op : Op) (h : WF s) :
    ∃ r, memStep s op = .ok r ∧ WF r.state := by
  obtain ⟨hne, h0, h1, hloc, hkeys⟩ := h
  obtain ⟨cur, hcur, hmem⟩ := nthJS_eq_some s.entries s.index h0 h1
  rw [hcur] at hloc
  have hlenpos : 0 < s.entries.length := List.length_pos.mpr hne
  cases op with
  | push dest st =>
    simp only [memStep, hloc]
    by_cases hb : s.blockers ≠ 0
    · rw [if_pos hb]
      refine ⟨_, rfl, hne, h0, h1, hcur.symm, ?_⟩
      intro l hl
      exact Nat.lt_succ_of_lt (hkeys l hl)
    · rw [if_neg hb]
      refine ⟨_, rfl, ?_, ?_, ?_, ?_, ?_⟩ <;>
        simp only [spliceAllJS, if_neg (by omega : ¬ s.index + 1 < 0)]
      · simp
      · show (0 : Int) ≤ s.index + 1
        omega
      · show s.index + 1 <
          ((List.take (s.index + 1).toNat s.entries ++ [_]).length : Int)
        simp only [List.length_append, List.length_take, List.length_cons,
          List.length_nil]
        omega
      · show some _ = nthJS (List.take (s.index + 1).toNat s.entries ++ [_])
          (s.index + 1)
        have htn : (s.index + 1).toNat = s.index.toNat + 1 := by omega
        have htake : (List.take (s.index.toNat + 1) s.entries).length =
            s.index.toNat + 1 := by
          rw [List.length_take]
          omega
        simp only [nthJS, if_pos (by omega : (0 : Int) ≤ s.index + 1), htn]
        rw [List.getElem?_append_right (by omega)]
        simp [htake]
      · intro l hl
        rcases List.mem_append.mp hl with hl | hl
        · exact Nat.lt_succ_of_lt (hkeys l (List.take_subset _ _ hl))
        · simp only [List.mem_singleton] at hl
          simp [hl, getNextLocation]
  | replace dest st =>
    simp only [memStep, hloc]
    by_cases hb : s.blockers ≠ 0
    · rw [if_pos hb]
      refine ⟨_, rfl, hne, h0, h1, hcur.symm, ?_⟩
      intro l hl
      exact Nat.lt_succ_of_lt (hkeys l hl)
    · rw [if_neg hb]
      have htn : s.index.toNat < s.entries.length := by omega
      refine ⟨_, rfl, ?_, h0, ?_, ?_, ?_⟩ <;>
        simp only [setJS, if_pos h0]
      · intro hnil
        have hlen2 := congrArg List.length hnil
        rw [List.length_set, List.length_nil] at hlen2
        omega
      · show s.index < ((s.entries.set s.index.toNat _).length : Int)
        simp only [List.length_set]
        omega
      · show some _ = nthJS (s.entries.set s.index.toNat _) s.index
        simp [nthJS, h0, List.getElem?_set_self htn]
      · intro l hl
        rcases List.mem_or_eq_of_mem_set hl with hl | rfl
        · exact Nat.lt_succ_of_lt (hkeys l hl)
        · simp [getNextLocation]
  | go n =>
    exact ⟨_, rfl, wf_goStep s n ⟨hne, h0, h1, by rw [hcur, hloc], hkeys⟩⟩
  | back =>
    exact ⟨_, rfl, wf_goStep s (-1) ⟨hne, h0, h1, by rw [hcur, hloc], hkeys⟩⟩
  | forward =>
    exact ⟨_, rfl, wf_goStep s 1 ⟨hne, h0, h1, by rw [hcur, hloc], hkeys⟩⟩

theorem wf_runOps (s : MemState) (ops : List Op) (h : WF s) :
    WF (runOps s ops) := by
  induction ops generalizing s with
  | nil => exact h
  | cons op rest ih =>
    obtain ⟨r, hr, hwf⟩ := wf_memStep s op h
    rw [runOps, hr]
    exact ih r.state hwf

/-! ## Claims about the in-memory backend -/

/-- C10 (amended: the initial entry list must be non-empty; with
`initialEntries: []` the source clamps the index to `-1`): every
memory history reachable from `createMemoryHistory` by push, replace,
go, back and forward satisfies `0 ≤ index ≤ entries.length - 1` and
its observable location is `entries[index]`. -/
theorem memoryHistory_invariant (inits : List To) (i0 : Int) (ops : List Op)
    (h : inits ≠ []) :
    0 ≤ (runOps (createMemoryHistory inits i0) ops).index ∧
      (runOps (createMemoryHistory inits i0) ops).index ≤
        ((runOps (createMemoryHistory inits i0) ops).entries.length : Int) - 1 ∧
      (runOps (createMemoryHistory inits i0) ops).location =
        nthJS (runOps (createMemoryHistory inits i0) ops).entries
          (runOps (createMemoryHistory inits i0) ops).index := by
  obtain ⟨hne, h0, h1, hloc, hkeys⟩ :=
    wf_runOps _ ops (wf_createMemoryHistory inits i0 h)
  exact ⟨h0, by omega, hloc⟩

/-- Counterexample to C10 as stated: with an empty `initialEntries`
the source constructs `index = clamp(0, 0, -1) = -1`, violating
`0 ≤ index`. -/
theorem memoryHistory_invariant_counterexample :
    ¬ 0 ≤ (createMemoryHistory [] 0).index := by decide

/-- Witness for C10 on a concrete history and operation sequence. -/
theorem memoryHistory_invariant_witness :
    ([To.path ['/']] : List To) ≠ [] ∧
      (0 ≤ (runOps (createMemoryHistory [To.path ['/']] 0)
          [Op.push (To.path ['/', 'a']) none, Op.back]).index ∧
        (runOps (createMemoryHistory [To.path ['/']] 0)
            [Op.push (To.path ['/', 'a']) none, Op.back]).index ≤
          ((runOps (createMemoryHistory [To.path ['/']] 0)
              [Op.push (To.path ['/', 'a']) none, Op.back]).entries.length : Int)
            - 1 ∧
        (runOps (createMemoryHistory [To.path ['/']] 0)
            [Op.push (To.path ['/', 'a']) none, Op.back]).location =
          nthJS (runOps (createMemoryHistory [To.path ['/']] 0)
              [Op.push (To.path ['/', 'a']) none, Op.back]).entries
            (runOps (createMemoryHistory [To.path ['/']] 0)
              [Op.push (To.path ['/', 'a']) none, Op.back]).index) :=
  ⟨by decide, memoryHistory_invariant [To.path ['/']] 0
    [Op.push (To.path ['/', 'a']) none, Op.back] (by decide)⟩

/-- C3: on the in-memory backend with no blockers, starting from index
`i`: `push` sets the index to `i + 1`, keeps the entries at positions
`0..i`, truncates everything after the old position `i` (the new depth
is `i + 2`) and appends the new location as the last entry; `replace`
overwrites the entry at position `i` in place, keeping the index and
the stack depth unchanged. -/
theorem mem_push_replace_stack (s : MemState) (dest : To) (st : Option Nat)
    (hwf : WF s) (hb : s.blockers = 0) :
    ∃ cur, s.location = some cur ∧
      (∃ r, memStep s (Op.push dest st) = .ok r ∧
        r.state.index = s.index + 1 ∧
        r.state.entries.length = s.index.toNat + 2 ∧
        (∀ j : Int, 0 ≤ j → j ≤ s.index →
          nthJS r.state.entries j = nthJS s.entries j) ∧
        nthJS r.state.entries (s.index + 1) =
          some (getNextLocation cur dest st s.nextKey) ∧
        r.state.location = some (getNextLocation cur dest st s.nextKey)) ∧
      (∃ r, memStep s (Op.replace dest st) = .ok r ∧
        r.state.index = s.index ∧
        r.state.entries.length = s.entries.length ∧
        nthJS r.state.entries s.index =
          some (getNextLocation cur dest st s.nextKey) ∧
        (∀ j : Int, j ≠ s.index →
          nthJS r.state.entries j = nthJS s.entries j) ∧
        r.state.location = some (getNextLocation cur dest st s.nextKey)) := by
  obtain ⟨hne, h0, h1, hloc, hkeys⟩ := hwf
  obtain ⟨cur, hcur, hmem⟩ := nthJS_eq_some s.entries s.index h0 h1
  rw [hcur] at hloc
  have hb' : ¬ s.blockers ≠ 0 := by omega
  have htn : (s.index + 1).toNat = s.index.toNat + 1 := by omega
  have hlt : s.index.toNat < s.entries.length := by omega
  have hpush : memStep s (Op.push dest st) = .ok
      { state := { s with
          index := s.index + 1
          entries := spliceAllJS s.entries (s.index + 1)
            (getNextLocation cur dest st s.nextKey)
          action := .push
          location := some (getNextLocation cur dest st s.nextKey)
          nextKey := s.nextKey + 1 }
        updates := [⟨Action.push, some (getNextLocation cur dest st s.nextKey)⟩]
        blockedTx := none } := by
    simp only [memStep, hloc]
    rw [if_neg hb']
  have hrepl : memStep s (Op.replace dest st) = .ok
      { state := { s with
          entries := setJS s.entries s.index
            (getNextLocation cur dest st s.nextKey)
          action := .replace
          location := some (getNextLocation cur dest st s.nextKey)
          nextKey := s.nextKey + 1 }
        updates := [⟨Action.replace, some (getNextLocation cur dest st s.nextKey)⟩]
        blockedTx := none } := by
    simp only [memStep, hloc]
    rw [if_neg hb']
  refine ⟨cur, hloc, ⟨_, hpush, rfl, ?_, ?_, ?_, rfl⟩,
    ⟨_, hrepl, rfl, ?_, ?_, ?_, rfl⟩⟩
  · show (spliceAllJS s.entries (s.index + 1) _).length = s.index.toNat + 2
    simp only [spliceAllJS, if_neg (by omega : ¬ s.index + 1 < 0), htn]
    simp only [List.length_append, List.length_take, List.length_cons,
      List.length_nil]
    omega
  · intro j hj0 hj1
    have hjn : j.toNat < s.index.toNat + 1 := by omega
    show nthJS (spliceAllJS s.entries (s.index + 1) _) j = nthJS s.entries j
    simp only [spliceAllJS, if_neg (by omega : ¬ s.index + 1 < 0), htn]
    simp only [nthJS, if_pos hj0]
    rw [List.getElem?_append, if_pos (by simp [List.length_take]; omega),
      List.getElem?_take, if_pos hjn]
  · show nthJS (spliceAllJS s.entries (s.index + 1) _) (s.index + 1) = some _
    simp only [spliceAllJS, if_neg (by omega : ¬ s.index + 1 < 0), htn]
    have htake : (List.take (s.index.toNat + 1) s.entries).length =
        s.index.toNat + 1 := by
      rw [List.length_take]
      omega
    simp only [nthJS, if_pos (by omega : (0 : Int) ≤ s.index + 1), htn]
    rw [List.getElem?_append_right (by omega)]
    simp [htake]
  · show (setJS s.entries s.index _).length = s.entries.length
    simp only [setJS, if_pos h0, List.length_set]
  · show nthJS (setJS s.entries s.index _) s.index = some _
    simp only [setJS, if_pos h0]
    simp [nthJS, h0, List.getElem?_set_self hlt]
  · intro j hj
    show nthJS (setJS s.entries s.index _) j = nthJS s.entries j
    simp only [setJS, if_pos h0, nthJS]
    by_cases hj0 : 0 ≤ j
    · rw [if_pos hj0, if_pos hj0, List.getElem?_set_ne (by omega)]
    · rw [if_neg hj0, if_neg hj0]

/-- Witness for C3 on a concrete two-entry history. -/
theorem mem_push_replace_stack_witness :
    WF (createMemoryHistory [To.path ['/'], To.path ['/', 'a']] 1) ∧
      (createMemoryHistory [To.path ['/'], To.path ['/', 'a']] 1).blockers = 0 ∧
      ∃ cur,
        (createMemoryHistory [To.path ['/'], To.path ['/', 'a']] 1).location =
          some cur ∧
        (∃ r, memStep (createMemoryHistory [To.path ['/'], To.path ['/', 'a']] 1)
            (Op.push (To.path ['/', 'b']) none) = .ok r ∧
          r.state.index =
            (createMemoryHistory [To.path ['/'], To.path ['/', 'a']] 1).index + 1 ∧
          r.state.entries.length =
            (createMemoryHistory
              [To.path ['/'], To.path ['/', 'a']] 1).index.toNat + 2 ∧
          (∀ j : Int, 0 ≤ j →
            j ≤ (createMemoryHistory [To.path ['/'], To.path ['/', 'a']] 1).index →
            nthJS r.state.entries j =
              nthJS (createMemoryHistory
                [To.path ['/'], To.path ['/', 'a']] 1).entries j) ∧
          nthJS r.state.entries
            ((createMemoryHistory [To.path ['/'], To.path ['/', 'a']] 1).index + 1) =
            some (getNextLocation cur (To.path ['/', 'b']) none
              (createMemoryHistory [To.path ['/'], To.path ['/', 'a']] 1).nextKey) ∧
          r.state.location =
            some (getNextLocation cur (To.path ['/', 'b']) none
              (createMemoryHistory
                [To.path ['/'], To.path ['/', 'a']] 1).nextKey)) ∧
        (∃ r, memStep (createMemoryHistory [To.path ['/'], To.path ['/', 'a']] 1)
            (Op.replace (To.path ['/', 'b']) none) = .ok r ∧
          r.state.index =
            (createMemoryHistory [To.path ['/'], To.path ['/', 'a']] 1).index ∧
          r.state.entries.length =
            (createMemoryHistory
              [To.path ['/'], To.path ['/', 'a']] 1).entries.length ∧
          nthJS r.state.entries
            (createMemoryHistory [To.path ['/'], To.path ['/', 'a']] 1).index =
            some (getNextLocation cur (To.path ['/', 'b']) none
              (createMemoryHistory [To.path ['/'], To.path ['/', 'a']] 1).nextKey) ∧
          (∀ j : Int,
            j ≠ (createMemoryHistory [To.path ['/'], To.path ['/', 'a']] 1).index →
            nthJS r.state.entries j =
              nthJS (createMemoryHistory
                [To.path ['/'], To.path ['/', 'a']] 1).entries j) ∧
          r.state.location =
            some (getNextLocation cur (To.path ['/', 'b']) none
              (createMemoryHistory
                [To.path ['/'], To.path ['/', 'a']] 1).nextKey)) :=
  ⟨by decide, by decide,
    mem_push_replace_stack _ (To.path ['/', 'b']) none (by decide) (by decide)⟩

/-- C5: with no blockers registered, `go(n)` on a well-formed
in-memory history never throws for any integer `n`; the resulting
index is `clamp(index + n, 0, entries.length - 1)`, stays inside the
valid range, and the resulting location is an existing entry. -/
theorem mem_go_clamps (s : MemState) (n : Int) (hwf : WF s)
    (hb : s.blockers = 0) :
    ∃ r, memStep s (Op.go n) = .ok r ∧
      r.state.index = clamp (s.index + n) 0 ((s.entries.length : Int) - 1) ∧
      0 ≤ r.state.index ∧ r.state.index < (s.entries.length : Int) ∧
      ∃ loc, r.state.location = some loc ∧ loc ∈ s.entries := by
  obtain ⟨hne, h0, h1, hloc, hkeys⟩ := hwf
  have hlenpos : 0 < s.entries.length := List.length_pos.mpr hne
  have hb' : ¬ s.blockers ≠ 0 := by omega
  have hcl : 0 ≤ clamp (s.index + n) 0 ((s.entries.length : Int) - 1) ∧
      clamp (s.index + n) 0 ((s.entries.length : Int) - 1) <
        (s.entries.length : Int) := by
    simp only [clamp]
    omega
  obtain ⟨loc, hgot, hlm⟩ := nthJS_eq_some s.entries
    (clamp (s.index + n) 0 ((s.entries.length : Int) - 1)) hcl.1 hcl.2
  have hgo : memStep s (Op.go n) = .ok
      { state := { s with
          index := clamp (s.index + n) 0 ((s.entries.length : Int) - 1)
          action := .pop
          location := nthJS s.entries
            (clamp (s.index + n) 0 ((s.entries.length : Int) - 1)) }
        updates := [⟨Action.pop, nthJS s.entries
          (clamp (s.index + n) 0 ((s.entries.length : Int) - 1))⟩]
        blockedTx := none } := by
    simp only [memStep, goStep]
    rw [if_neg hb']
  exact ⟨_, hgo, rfl, hcl.1, hcl.2, loc, hgot, hlm⟩

/-- Witness for C5: a huge negative delta clamps to the bottom entry. -/
theorem mem_go_clamps_witness :
    WF (createMemoryHistory [To.path ['/'], To.path ['/', 'a']] 1) ∧
      (createMemoryHistory [To.path ['/'], To.path ['/', 'a']] 1).blockers = 0 ∧
      ∃ r, memStep (createMemoryHistory [To.path ['/'], To.path ['/', 'a']] 1)
          (Op.go (-1000)) = .ok r ∧
        r.state.index = clamp
          ((createMemoryHistory [To.path ['/'], To.path ['/', 'a']] 1).index
            + (-1000)) 0
          (((createMemoryHistory
              [To.path ['/'], To.path ['/', 'a']] 1).entries.length : Int) - 1) ∧
        0 ≤ r.state.index ∧
        r.state.index < ((createMemoryHistory
          [To.path ['/'], To.path ['/', 'a']] 1).entries.length : Int) ∧
        ∃ loc, r.state.location = some loc ∧
          loc ∈ (createMemoryHistory
            [To.path ['/'], To.path ['/', 'a']] 1).entries :=
  ⟨by decide, by decide, mem_go_clamps _ (-1000) (by decide) (by decide)⟩

/-- C7 (amended: the starting index must be at least 1, so that
`go(-1)` actually moves back instead of clamping at the bottom
boundary): `go(-1)` followed by `go(1)` with no intervening push or
replace restores the original location, including the same key. -/
theorem mem_back_forward_roundtrip (s : MemState) (hwf : WF s)
    (hidx : 1 ≤ s.index) :
    (goStep (goStep s (-1)).state 1).state.location = s.location := by
  obtain ⟨hne, h0, h1, hloc, hkeys⟩ := hwf
  have hlenpos : 0 < s.entries.length := List.length_pos.mpr hne
  by_cases hb : s.blockers ≠ 0
  · have e1 : (goStep s (-1)).state = s := by
      simp only [goStep, if_pos hb]
    rw [e1]
    simp only [goStep, if_pos hb]
  · have e1 : (goStep s (-1)).state = { s with
        index := clamp (s.index + -1) 0 ((s.entries.length : Int) - 1)
        action := .pop
        location := nthJS s.entries
          (clamp (s.index + -1) 0 ((s.entries.length : Int) - 1)) } := by
      simp only [goStep, if_neg hb]
    rw [e1]
    simp only [goStep, if_neg hb]
    have c2 : clamp (clamp (s.index + -1) 0 ((s.entries.length : Int) - 1) + 1)
        0 ((s.entries.length : Int) - 1) = s.index := by
      simp only [clamp]
      omega
    rw [c2]
    exact hloc.symm

/-- Counterexample to C7 as stated: from index 0 of a two-entry
history with no blockers, `go(-1)` clamps to 0 and the following
`go(1)` moves to entry 1, so the pair of calls does not restore the
original location. -/
theorem mem_back_forward_roundtrip_counterexample :
    (goStep (goStep
        (createMemoryHistory [To.path ['/', 'a'], To.path ['/', 'b']] 0)
        (-1)).state 1).state.location ≠
      (createMemoryHistory [To.path ['/', 'a'], To.path ['/', 'b']] 0).location :=
  by decide

/-- Witness for C7 from index 1 of a concrete two-entry history. -/
theorem mem_back_forward_roundtrip_witness :
    WF (createMemoryHistory [To.path ['/', 'a'], To.path ['/', 'b']] 1) ∧
      1 ≤ (createMemoryHistory [To.path ['/', 'a'], To.path ['/', 'b']] 1).index ∧
      (goStep (goStep
          (createMemoryHistory [To.path ['/', 'a'], To.path ['/', 'b']] 1)
          (-1)).state 1).state.location =
        (createMemoryHistory [To.path ['/', 'a'], To.path ['/', 'b']] 1).location :=
  ⟨by decide, by decide, mem_back_forward_roundtrip _ (by decide) (by decide)⟩

/-- The action a committed operation reports to listeners, one per
source function (`nextAction` in `push`, `replace` and `go`). -/
def opAction : Op → Action
  | .push _ _ => .push
  | .replace _ _ => .replace
  | .go _ => .pop
  | .back => .pop
  | .forward => .pop

/-- The operation captured by the retry closure: `back()` and
`forward()` are thin wrappers that call `go(-1)` / `go(1)`, so the
closure built inside `go` re-invokes that `go` call; every other
operation's closure re-invokes the operation itself. -/
def opRetry : Op → Op
  | .back => .go (-1)
  | .forward => .go 1
  | o => o

theorem mem_commit (s : MemState) (op : Op) (hwf : WF s)
    (hb : s.blockers = 0) :
    ∃ r, memStep s op = .ok r ∧ r.blockedTx = none ∧
      r.updates = [⟨opAction op, r.state.location⟩] ∧
      r.state.action = opAction op := by
  obtain ⟨hne, h0, h1, hloc, hkeys⟩ := hwf
  obtain ⟨cur, hcur, hmem⟩ := nthJS_eq_some s.entries s.index h0 h1
  rw [hcur] at hloc
  have hb' : ¬ s.blockers ≠ 0 := by omega
  cases op with
  | push dest st =>
    have hstep : memStep s (Op.push dest st) = .ok
        { state := { s with
            index := s.index + 1
            entries := spliceAllJS s.entries (s.index + 1)
              (getNextLocation cur dest st s.nextKey)
            action := .push
            location := some (getNextLocation cur dest st s.nextKey)
            nextKey := s.nextKey + 1 }
          updates := [⟨Action.push, some (getNextLocation cur dest st s.nextKey)⟩]
          blockedTx := none } := by
      simp only [memStep, hloc]
      rw [if_neg hb']
    exact ⟨_, hstep, rfl, rfl, rfl⟩
  | replace dest st =>
    have hstep : memStep s (Op.replace dest st) = .ok
        { state := { s with
            entries := setJS s.entries s.index
              (getNextLocation cur dest st s.nextKey)
            action := .replace
            location := some (getNextLocation cur dest st s.nextKey)
            nextKey := s.nextKey + 1 }
          updates := [⟨Action.replace,
            some (getNextLocation cur dest st s.nextKey)⟩]
          blockedTx := none } := by
      simp only [memStep, hloc]
      rw [if_neg hb']
    exact ⟨_, hstep, rfl, rfl, rfl⟩
  | go n =>
    have hstep : memStep s (Op.go n) = .ok
        { state := { s with
            index := clamp (s.index + n) 0 ((s.entries.length : Int) - 1)
            action := .pop
            location := nthJS s.entries
              (clamp (s.index + n) 0 ((s.entries.length : Int) - 1)) }
          updates := [⟨Action.pop, nthJS s.entries
            (clamp (s.index + n) 0 ((s.entries.length : Int) - 1))⟩]
          blockedTx := none } := by
      simp only [memStep, goStep]
      rw [if_neg hb']
    exact ⟨_, hstep, rfl, rfl, rfl⟩
  | back =>
    have hstep : memStep s Op.back = .ok
        { state := { s with
            index := clamp (s.index + -1) 0 ((s.entries.length : Int) - 1)
            action := .pop
            location := nthJS s.entries
              (clamp (s.index + -1) 0 ((s.entries.length : Int) - 1)) }
          updates := [⟨Action.pop, nthJS s.entries
            (clamp (s.index + -1) 0 ((s.entries.length : Int) - 1))⟩]
          blockedTx := none } := by
      simp only [memStep, goStep]
      rw [if_neg hb']
    exact ⟨_, hstep, rfl, rfl, rfl⟩
  | forward =>
    have hstep : memStep s Op.forward = .ok
        { state := { s with
            index := clamp (s.index + 1) 0 ((s.entries.length : Int) - 1)
            action := .pop
            location := nthJS s.entries
              (clamp (s.index + 1) 0 ((s.entries.length : Int) - 1)) }
          updates := [⟨Action.pop, nthJS s.entries
            (clamp (s.index + 1) 0 ((s.entries.length : Int) - 1))⟩]
          blockedTx := none } := by
      simp only [memStep, goStep]
      rw [if_neg hb']
    exact ⟨_, hstep, rfl, rfl, rfl⟩

/-- C2 (amended in its last part: a single `retry()` applies exactly
one Update provided no blocker is registered any more at retry time;
with a blocker still registered the retried operation is blocked
again and applies no Update): with zero blockers every operation is
unconditionally committed and the listeners are called exactly once
with the new consistent (action, location) pair; with at least one
blocker and no retry, the listeners are never called and the cursor
(action, location, index) and the entry array are unchanged, while the
blockers receive a transition whose retry re-invokes the very same
operation. -/
theorem mem_blocking_protocol (s : MemState) (op : Op) (hwf : WF s) :
    (s.blockers = 0 → ∃ r, memStep s op = .ok r ∧ r.blockedTx = none ∧
      r.updates = [⟨opAction op, r.state.location⟩] ∧
      r.state.action = opAction op) ∧
    (s.blockers ≠ 0 → ∃ r tx, memStep s op = .ok r ∧ r.updates = [] ∧
      r.blockedTx = some tx ∧ tx.retryOp = opRetry op ∧
      r.state.index = s.index ∧ r.state.action = s.action ∧
      r.state.location = s.location ∧ r.state.entries = s.entries ∧
      ∀ s2, WF s2 → s2.blockers = 0 →
        ∃ r2, memStep s2 tx.retryOp = .ok r2 ∧ r2.blockedTx = none ∧
          r2.updates.length = 1) := by
  obtain ⟨hne, h0, h1, hloc, hkeys⟩ := hwf
  obtain ⟨cur, hcur, hmem⟩ := nthJS_eq_some s.entries s.index h0 h1
  rw [hcur] at hloc
  refine ⟨fun hb => mem_commit s op ⟨hne, h0, h1, by rw [hcur, hloc], hkeys⟩ hb,
    fun hb => ?_⟩
  have hretry : ∀ op2 : Op, ∀ s2, WF s2 → s2.blockers = 0 →
      ∃ r2, memStep s2 op2 = .ok r2 ∧ r2.blockedTx = none ∧
        r2.updates.length = 1 := by
    intro op2 s2 h2 hb2
    obtain ⟨r2, hr2, htx2, hupd2, -⟩ := mem_commit s2 op2 h2 hb2
    exact ⟨r2, hr2, htx2, by rw [hupd2]; rfl⟩
  cases op with
  | push dest st =>
    have hstep : memStep s (Op.push dest st) = .ok
        { state := { s with nextKey := s.nextKey + 1 }
          updates := []
          blockedTx := some ⟨Action.push,
            some (getNextLocation cur dest st s.nextKey), Op.push dest st⟩ } := by
      simp only [memStep, hloc]
      rw [if_pos hb]
    exact ⟨_, _, hstep, rfl, rfl, rfl, rfl, rfl, rfl, rfl,
      hretry (Op.push dest st)⟩
  | replace dest st =>
    have hstep : memStep s (Op.replace dest st) = .ok
        { state := { s with nextKey := s.nextKey + 1 }
          updates := []
          blockedTx := some ⟨Action.replace,
            some (getNextLocation cur dest st s.nextKey),
            Op.replace dest st⟩ } := by
      simp only [memStep, hloc]
      rw [if_pos hb]
    exact ⟨_, _, hstep, rfl, rfl, rfl, rfl, rfl, rfl, rfl,
      hretry (Op.replace dest st)⟩
  | go n =>
    have hstep : memStep s (Op.go n) = .ok
        { state := s
          updates := []
          blockedTx := some ⟨Action.pop, nthJS s.entries
            (clamp (s.index + n) 0 ((s.entries.length : Int) - 1)),
            Op.go n⟩ } := by
      simp only [memStep, goStep]
      rw [if_pos hb]
    exact ⟨_, _, hstep, rfl, rfl, rfl, rfl, rfl, rfl, rfl, hretry (Op.go n)⟩
  | back =>
    have hstep : memStep s Op.back = .ok
        { state := s
          updates := []
          blockedTx := some ⟨Action.pop, nthJS s.entries
            (clamp (s.index + -1) 0 ((s.entries.length : Int) - 1)),
            Op.go (-1)⟩ } := by
      simp only [memStep, goStep]
      rw [if_pos hb]
    exact ⟨_, _, hstep, rfl, rfl, rfl, rfl, rfl, rfl, rfl, hretry (Op.go (-1))⟩
  | forward =>
    have hstep : memStep s Op.forward = .ok
        { state := s
          updates := []
          blockedTx := some ⟨Action.pop, nthJS s.entries
            (clamp (s.index + 1) 0 ((s.entries.length : Int) - 1)),
            Op.go 1⟩ } := by
      simp only [memStep, goStep]
      rw [if_pos hb]
    exact ⟨_, _, hstep, rfl, rfl, rfl, rfl, rfl, rfl, rfl, hretry (Op.go 1)⟩

/-- The updates produced by running `op` and then, when it was
blocked, invoking the received transition's retry exactly once on the
resulting state (with whatever blockers are still registered). -/
def retryOnceUpdates (s : MemState) (op : Op) : Option (List Update) :=
  match memStep s op with
  | .error _ => none
  | .ok r =>
    match r.blockedTx with
    | none => none
    | some tx =>
      match memStep r.state tx.retryOp with
      | .error _ => none
      | .ok r2 => some r2.updates

/-- Counterexample to C2's retry part as stated: with one blocker
registered, a blocked `push` whose transition's `retry()` is invoked
exactly once applies zero Updates (the retried push is blocked again),
not exactly one. -/
theorem mem_retry_counterexample :
    retryOnceUpdates (memBlock (createMemoryHistory [To.path ['/']] 0))
      (Op.push (To.path ['/', 'b']) none) = some [] := by decide

/-- Witness for C2 at a concrete one-entry history and a `push`. -/
theorem mem_blocking_protocol_witness :
    WF (createMemoryHistory [To.path ['/']] 0) ∧
      (((createMemoryHistory [To.path ['/']] 0).blockers = 0 →
        ∃ r, memStep (createMemoryHistory [To.path ['/']] 0)
            (Op.push (To.path ['/', 'b']) none) = .ok r ∧
          r.blockedTx = none ∧
          r.updates = [⟨opAction (Op.push (To.path ['/', 'b']) none),
            r.state.location⟩] ∧
          r.state.action = opAction (Op.push (To.path ['/', 'b']) none)) ∧
      ((createMemoryHistory [To.path ['/']] 0).blockers ≠ 0 →
        ∃ r tx, memStep (createMemoryHistory [To.path ['/']] 0)
            (Op.push (To.path ['/', 'b']) none) = .ok r ∧
          r.updates = [] ∧ r.blockedTx = some tx ∧
          tx.retryOp = opRetry (Op.push (To.path ['/', 'b']) none) ∧
          r.state.index = (createMemoryHistory [To.path ['/']] 0).index ∧
          r.state.action = (createMemoryHistory [To.path ['/']] 0).action ∧
          r.state.location = (createMemoryHistory [To.path ['/']] 0).location ∧
          r.state.entries = (createMemoryHistory [To.path ['/']] 0).entries ∧
          ∀ s2, WF s2 → s2.blockers = 0 →
            ∃ r2, memStep s2 tx.retryOp = .ok r2 ∧ r2.blockedTx = none ∧
              r2.updates.length = 1)) :=
  ⟨by decide, mem_blocking_protocol (createMemoryHistory [To.path ['/']] 0)
    (Op.push (To.path ['/', 'b']) none) (by decide)⟩

/-- C8: for every push or replace, the candidate next location built
from the current location, the `to` value and the state carries the
freshly generated key, which differs from the current location's key
(and from every key stored in the entry array); each path piece
missing from `to` defaults to the corresponding field of the current
location, a present piece is taken from `to`, and the state is always
the one supplied.  Both `push` and `replace` use exactly this
candidate, whether they commit it or hand it to the blockers. -/
theorem mem_next_location_fresh (s : MemState) (dest : To) (st : Option Nat)
    (hwf : WF s) :
    ∃ cur, s.location = some cur ∧
      (getNextLocation cur dest st s.nextKey).key = s.nextKey ∧
      (getNextLocation cur dest st s.nextKey).key ≠ cur.key ∧
      (∀ l ∈ s.entries, (getNextLocation cur dest st s.nextKey).key ≠ l.key) ∧
      ((resolveTo dest).pathname = none →
        (getNextLocation cur dest st s.nextKey).pathname = cur.pathname) ∧
      (∀ v, (resolveTo dest).pathname = some v →
        (getNextLocation cur dest st s.nextKey).pathname = v) ∧
      ((resolveTo dest).search = none →
        (getNextLocation cur dest st s.nextKey).search = cur.search) ∧
      (∀ v, (resolveTo dest).search = some v →
        (getNextLocation cur dest st s.nextKey).search = v) ∧
      ((resolveTo dest).hash = none →
        (getNextLocation cur dest st s.nextKey).hash = cur.hash) ∧
      (∀ v, (resolveTo dest).hash = some v →
        (getNextLocation cur dest st s.nextKey).hash = v) ∧
      (getNextLocation cur dest st s.nextKey).state = st ∧
      (∀ r, memStep s (Op.push dest st) = .ok r →
        r.state.location = some (getNextLocation cur dest st s.nextKey) ∨
        r.blockedTx = some ⟨Action.push,
          some (getNextLocation cur dest st s.nextKey), Op.push dest st⟩) ∧
      (∀ r, memStep s (Op.replace dest st) = .ok r →
        r.state.location = some (getNextLocation cur dest st s.nextKey) ∨
        r.blockedTx = some ⟨Action.replace,
          some (getNextLocation cur dest st s.nextKey),
          Op.replace dest st⟩) := by
  obtain ⟨hne, h0, h1, hloc, hkeys⟩ := hwf
  obtain ⟨cur, hcur, hmem⟩ := nthJS_eq_some s.entries s.index h0 h1
  rw [hcur] at hloc
  have hkey : (getNextLocation cur dest st s.nextKey).key = s.nextKey := rfl
  refine ⟨cur, hloc, hkey, ?_, ?_, ?_, ?_, ?_, ?_, ?_, ?_, rfl, ?_, ?_⟩
  · have := hkeys cur hmem
    rw [hkey]
    omega
  · intro l hl
    have := hkeys l hl
    rw [hkey]
    omega
  · intro hp
    simp [getNextLocation, hp]
  · intro v hp
    simp [getNextLocation, hp]
  · intro hp
    simp [getNextLocation, hp]
  · intro v hp
    simp [getNextLocation, hp]
  · intro hp
    simp [getNextLocation, hp]
  · intro v hp
    simp [getNextLocation, hp]
  · intro r hr
    simp only [memStep, hloc] at hr
    by_cases hb : s.blockers ≠ 0
    · rw [if_pos hb] at hr
      cases hr
      right
      rfl
    · rw [if_neg hb] at hr
      cases hr
      left
      rfl
  · intro r hr
    simp only [memStep, hloc] at hr
    by_cases hb : s.blockers ≠ 0
    · rw [if_pos hb] at hr
      cases hr
      right
      rfl
    · rw [if_neg hb] at hr
      cases hr
      left
      rfl

/-- Witness for C8: pushing the pieces object `{ search := ?q }` from
a concrete history defaults pathname and hash from the current
location and carries the fresh key. -/
theorem mem_next_location_fresh_witness :
    WF (createMemoryHistory [To.path ['/', 'a', '#', 'x']] 0) ∧
      ∃ cur, (createMemoryHistory [To.path ['/', 'a', '#', 'x']] 0).location =
          some cur ∧
        (getNextLocation cur (To.pieces ⟨none, some ['?', 'q'], none⟩) none
          (createMemoryHistory [To.path ['/', 'a', '#', 'x']] 0).nextKey).key =
          (createMemoryHistory [To.path ['/', 'a', '#', 'x']] 0).nextKey ∧
        (getNextLocation cur (To.pieces ⟨none, some ['?', 'q'], none⟩) none
          (createMemoryHistory [To.path ['/', 'a', '#', 'x']] 0).nextKey).key ≠
          cur.key ∧
        (∀ l ∈ (createMemoryHistory [To.path ['/', 'a', '#', 'x']] 0).entries,
          (getNextLocation cur (To.pieces ⟨none, some ['?', 'q'], none⟩) none
            (createMemoryHistory
              [To.path ['/', 'a', '#', 'x']] 0).nextKey).key ≠ l.key) ∧
        ((resolveTo (To.pieces ⟨none, some ['?', 'q'], none⟩)).pathname = none →
          (getNextLocation cur (To.pieces ⟨none, some ['?', 'q'], none⟩) none
            (createMemoryHistory
              [To.path ['/', 'a', '#', 'x']] 0).nextKey).pathname =
            cur.pathname) ∧
        (∀ v, (resolveTo (To.pieces ⟨none, some ['?', 'q'], none⟩)).pathname =
            some v →
          (getNextLocation cur (To.pieces ⟨none, some ['?', 'q'], none⟩) none
            (createMemoryHistory
              [To.path ['/', 'a', '#', 'x']] 0).nextKey).pathname = v) ∧
        ((resolveTo (To.pieces ⟨none, some ['?', 'q'], none⟩)).search = none →
          (getNextLocation cur (To.pieces ⟨none, some ['?', 'q'], none⟩) none
            (createMemoryHistory
              [To.path ['/', 'a', '#', 'x']] 0).nextKey).search = cur.search) ∧
        (∀ v, (resolveTo (To.pieces ⟨none, some ['?', 'q'], none⟩)).search =
            some v →
          (getNextLocation cur (To.pieces ⟨none, some ['?', 'q'], none⟩) none
            (createMemoryHistory
              [To.path ['/', 'a', '#', 'x']] 0).nextKey).search = v) ∧
        ((resolveTo (To.pieces ⟨none, some ['?', 'q'], none⟩)).hash = none →
          (getNextLocation cur (To.pieces ⟨none, some ['?', 'q'], none⟩) none
            (createMemoryHistory
              [To.path ['/', 'a', '#', 'x']] 0).nextKey).hash = cur.hash) ∧
        (∀ v, (resolveTo (To.pieces ⟨none, some ['?', 'q'], none⟩)).hash =
            some v →
          (getNextLocation cur (To.pieces ⟨none, some ['?', 'q'], none⟩) none
            (createMemoryHistory
              [To.path ['/', 'a', '#', 'x']] 0).nextKey).hash = v) ∧
        (getNextLocation cur (To.pieces ⟨none, some ['?', 'q'], none⟩) none
          (createMemoryHistory
            [To.path ['/', 'a', '#', 'x']] 0).nextKey).state = none ∧
        (∀ r, memStep (createMemoryHistory [To.path ['/', 'a', '#', 'x']] 0)
            (Op.push (To.pieces ⟨none, some ['?', 'q'], none⟩) none) = .ok r →
          r.state.location = some (getNextLocation cur
            (To.pieces ⟨none, some ['?', 'q'], none⟩) none
            (createMemoryHistory [To.path ['/', 'a', '#', 'x']] 0).nextKey) ∨
          r.blockedTx = some ⟨Action.push,
            some (getNextLocation cur (To.pieces ⟨none, some ['?', 'q'], none⟩)
              none (createMemoryHistory [To.path ['/', 'a', '#', 'x']] 0).nextKey),
            Op.push (To.pieces ⟨none, some ['?', 'q'], none⟩) none⟩) ∧
        (∀ r, memStep (createMemoryHistory [To.path ['/', 'a', '#', 'x']] 0)
            (Op.replace (To.pieces ⟨none, some ['?', 'q'], none⟩) none) = .ok r →
          r.state.location = some (getNextLocation cur
            (To.pieces ⟨none, some ['?', 'q'], none⟩) none
            (createMemoryHistory [To.path ['/', 'a', '#', 'x']] 0).nextKey) ∨
          r.blockedTx = some ⟨Action.replace,
            some (getNextLocation cur (To.pieces ⟨none, some ['?', 'q'], none⟩)
              none (createMemoryHistory [To.path ['/', 'a', '#', 'x']] 0).nextKey),
            Op.replace (To.pieces ⟨none, some ['?', 'q'], none⟩) none⟩) :=
  ⟨by decide, mem_next_location_fresh (createMemoryHistory
    [To.path ['/', 'a', '#', 'x']] 0)
    (To.pieces ⟨none, some ['?', 'q'], none⟩) none (by decide)⟩

/-! ## Event registry (`createEvents`)

The registry keeps an ordered list of handlers.  Handlers are JS
function references compared with `!==`, modelled by an arbitrary type
with decidable equality. -/

/-- `createEvents().push(fn)`: appends the handler at the end. -/
def eventsAdd {α : Type} (handlers : List α) (fn : α) : List α :=
  handlers ++ [fn]

/-- The de-registration closure returned by `push(fn)`:
`handlers = handlers.filter(handler => handler !== fn)`. -/
def eventsRemove {α : Type} [DecidableEq α] (fn : α) (handlers : List α) :
    List α :=
  handlers.filter (fun h => h ≠ fn)

/-- A handler as `call` sees it: an identity (reference) and whether
invoking it raises an error. -/
structure Handler where
  id : Nat
  throws : Bool
deriving Repr, DecidableEq

/-- `createEvents().call(arg)`:
`handlers.forEach(fn => fn && fn(arg))`.  `forEach` invokes the
handlers left to right; an exception thrown by a handler propagates
out of `forEach` and aborts the iteration — there is no try/catch in
the source.  Returns the identities invoked, in order, together with
the identity of the throwing handler, if any. -/
def callAll : List Handler → List Nat × Option Nat
  | [] => ([], none)
  | h :: rest =>
    if h.throws then ([h.id], some h.id)
    else
      let r := callAll rest
      (h.id :: r.1, r.2)

/-- Counterexample to C6 as stated: with handler 0 throwing and
handler 1 registered after it, `call` invokes only handler 0 — the
error propagates out of `forEach` and handler 1 never runs, so one
handler's error does prevent later handlers in the same call. -/
theorem callAll_counterexample :
    callAll [⟨0, true⟩, ⟨1, false⟩] = ([0], some 0) := by decide

/-- C6 (amended: an error raised by a handler propagates out of
`call` and the handlers after it are not invoked; invocations are not
isolated): `call` invokes the currently-registered handlers
synchronously in registration order — all of them when none throws,
and exactly the prefix up to and including the first throwing handler
otherwise. -/
theorem callAll_order (hs pre post : List Handler) (h : Handler) :
    ((∀ g ∈ hs, g.throws = false) →
      callAll hs = (hs.map Handler.id, none)) ∧
    ((∀ g ∈ pre, g.throws = false) → h.throws = true →
      callAll (pre ++ h :: post) =
        (pre.map Handler.id ++ [h.id], some h.id)) := by
  constructor
  · intro hall
    induction hs with
    | nil => rfl
    | cons g rest ih =>
      have hg : g.throws = false := hall g (by simp)
      simp only [callAll, hg, Bool.false_eq_true, if_false, List.map_cons]
      rw [ih fun x hx => hall x (by simp [hx])]
  · intro hpre hthrow
    induction pre with
    | nil =>
      simp only [List.nil_append, callAll, hthrow, if_true, List.map_nil]
    | cons g rest ih =>
      have hg : g.throws = false := hpre g (by simp)
      simp only [List.cons_append, callAll, hg, Bool.false_eq_true, if_false,
        List.map_cons, List.append_eq]
      rw [ih fun x hx => hpre x (by simp [hx])]

/-- Witness for C6 on concrete handler lists. -/
theorem callAll_order_witness :
    ((∀ g ∈ ([⟨0, false⟩, ⟨1, false⟩] : List Handler), g.throws = false) →
      callAll [⟨0, false⟩, ⟨1, false⟩] =
        (([⟨0, false⟩, ⟨1, false⟩] : List Handler).map Handler.id, none)) ∧
    ((∀ g ∈ ([⟨2, false⟩] : List Handler), g.throws = false) →
      Handler.throws ⟨3, true⟩ = true →
      callAll ([⟨2, false⟩] ++ ⟨3, true⟩ :: [⟨4, false⟩]) =
        (([⟨2, false⟩] : List Handler).map Handler.id ++ [3], some 3)) :=
  callAll_order [⟨0, false⟩, ⟨1, false⟩] [⟨2, false⟩] [⟨4, false⟩] ⟨3, true⟩

/-- C9: duplicate registrations of the same handler reference coexist
(adding a handler again increases its multiplicity); the
de-registration closure removes that exact reference and no other
(counts of every other handler are unchanged and the order of the
survivors is preserved); running it a second time, or running it when
the handler is not present, is a no-op. -/
theorem events_add_remove {α : Type} [DecidableEq α] (l : List α) (f : α) :
    (eventsAdd l f).count f = l.count f + 1 ∧
    f ∉ eventsRemove f l ∧
    (∀ g, g ≠ f → (eventsRemove f l).count g = l.count g) ∧
    (eventsRemove f l).Sublist l ∧
    eventsRemove f (eventsRemove f l) = eventsRemove f l ∧
    (f ∉ l → eventsRemove f l = l) := by
  refine ⟨?_, ?_, ?_, ?_, ?_, ?_⟩
  · simp [eventsAdd]
  · simp [eventsRemove]
  · intro g hg
    exact List.count_filter (by simp [hg])
  · exact List.filter_sublist l
  · simp [eventsRemove, List.filter_filter]
  · intro hf
    refine List.filter_eq_self.mpr fun a ha => ?_
    simp only [ne_eq, decide_eq_true_eq]
    exact fun haf => hf (haf ▸ ha)

/-- Witness for C9 on a concrete registry of naturals. -/
theorem events_add_remove_witness :
    (eventsAdd [5, 7, 5] 5).count 5 = List.count 5 [5, 7, 5] + 1 ∧
    5 ∉ eventsRemove 5 [5, 7, 5] ∧
    (∀ g : Nat, g ≠ 5 →
      (eventsRemove 5 [5, 7, 5]).count g = List.count g [5, 7, 5]) ∧
    (eventsRemove 5 [5, 7, 5]).Sublist [5, 7, 5] ∧
    eventsRemove 5 (eventsRemove 5 [5, 7, 5]) = eventsRemove 5 [5, 7, 5] ∧
    (5 ∉ [5, 7, 5] → eventsRemove 5 [5, 7, 5] = [5, 7, 5]) :=
  events_add_remove [5, 7, 5] 5

/-! ## Browser backend: the POP-blocking handler -/

/-- A browser-backend `Transition`: the update plus the captured retry
closure, which calls `go(n * -1)` for the captured delta `n`. -/
structure BTransition where
  action : Action
  location : Location
  retryDelta : Int
deriving Repr, DecidableEq

/-- The browser history engine state visible to `handlePop`: the
cursor (action, index, location), the number of registered blockers,
and the one-slot mailbox `blockedPopTx`.  The cached `index` is the
`idx` field of the platform's history state and can be `undefined` for
entries the library did not create. -/
structure BrowserState where
  action : Action
  index : Option Int
  location : Location
  blockers : Nat
  blockedPopTx : Option BTransition
deriving Repr, DecidableEq

/-- The outcome of one `popstate` handler invocation: the engine state
afterwards, the deltas passed to `globalHistory.go`, the transitions
passed to `blockers.call`, and the updates passed to
`listeners.call`. -/
structure PopResult where
  state : BrowserState
  goCalls : List Int
  blockerCalls : List BTransition
  listenerCalls : List Update
deriving Repr, DecidableEq

/-- `handlePop` from the browser backend, invoked with the platform
reading `getIndexAndLocation() = (nextIndex, nextLocation)` taken when
the `popstate` event fires.  If a blocked POP is held, blockers are
notified with it and the slot is cleared.  Otherwise, with blockers
registered and a stored index present and different from the cached
one, the engine issues the counter-move `go(n)` for
`n = index - nextIndex` and holds the transition; with no stored index
(or an undefined cached index, which makes `n` NaN so `if (n)` is
false) nothing happens beyond a warning; with no blockers the POP is
applied: the cursor is updated and listeners are called once. -/
def handlePop (s : BrowserState) (nextIndex : Option Int)
    (nextLocation : Location) : PopResult :=
  match s.blockedPopTx with
  | some tx =>
    { state := { s with blockedPopTx := none }
      goCalls := []
      blockerCalls := [tx]
      listenerCalls := [] }
  | none =>
    if s.blockers ≠ 0 then
      match nextIndex, s.index with
      | some j, some i =>
        let n := i - j
        if n ≠ 0 then
          { state :=
              { s with blockedPopTx := some ⟨Action.pop, nextLocation, n * -1⟩ }
            goCalls := [n]
            blockerCalls := []
            listenerCalls := [] }
        else
          { state := s, goCalls := [], blockerCalls := [],
            listenerCalls := [] }
      | some _, none =>
        { state := s, goCalls := [], blockerCalls := [], listenerCalls := [] }
      | none, _ =>
        { state := s, goCalls := [], blockerCalls := [], listenerCalls := [] }
    else
      { state := { s with
          action := Action.pop
          index := nextIndex
          location := nextLocation }
        goCalls := []
        blockerCalls := []
        listenerCalls := [⟨Action.pop, some nextLocation⟩] }

/-- C4: with at least one blocker registered and no POP currently
held, an external POP to an entry whose stored index `j` differs from
the cached index `i` makes the engine counter-move the platform by
`n = i - j`, hold a transition whose retry moves by `-n`, and call no
listener; the next POP detection — the one the counter-move itself
triggers — notifies the blockers with exactly that held transition
(once, via one `blockers.call`), clears the slot and again calls no
listener, so the blocked navigation is never fanned out to listeners. -/
theorem browser_blocked_pop (s : BrowserState) (i j : Int)
    (nextLocation : Location) (hheld : s.blockedPopTx = none)
    (hblockers : s.blockers ≠ 0) (hi : s.index = some i) (hne : j ≠ i) :
    ∃ tx,
      (handlePop s (some j) nextLocation).goCalls = [i - j] ∧
      (handlePop s (some j) nextLocation).blockerCalls = [] ∧
      (handlePop s (some j) nextLocation).listenerCalls = [] ∧
      (handlePop s (some j) nextLocation).state.blockedPopTx = some tx ∧
      tx.action = Action.pop ∧ tx.location = nextLocation ∧
      tx.retryDelta = -(i - j) ∧
      (handlePop s (some j) nextLocation).state.index = s.index ∧
      (handlePop s (some j) nextLocation).state.location = s.location ∧
      (handlePop s (some j) nextLocation).state.action = s.action ∧
      ∀ ni2 nl2,
        (handlePop (handlePop s (some j) nextLocation).state ni2
          nl2).blockerCalls = [tx] ∧
        (handlePop (handlePop s (some j) nextLocation).state ni2
          nl2).listenerCalls = [] ∧
        (handlePop (handlePop s (some j) nextLocation).state ni2
          nl2).goCalls = [] ∧
        (handlePop (handlePop s (some j) nextLocation).state ni2
          nl2).state.blockedPopTx = none := by
  have hn : ¬ i - j = 0 := by omega
  have h1 : handlePop s (some j) nextLocation =
      { state := { s with
          blockedPopTx := some ⟨Action.pop, nextLocation, (i - j) * -1⟩ }
        goCalls := [i - j]
        blockerCalls := []
        listenerCalls := [] } := by
    simp only [handlePop, hheld, hi]
    rw [if_pos hblockers]
    simp only [ne_eq, hn, not_false_eq_true, if_pos]
  refine ⟨⟨Action.pop, nextLocation, (i - j) * -1⟩, ?_, ?_, ?_, ?_, rfl, rfl,
    by show (i - j) * -1 = -(i - j); omega, ?_, ?_, ?_, ?_⟩ <;>
    rw [h1]
  intro ni2 nl2
  exact ⟨rfl, rfl, rfl, rfl⟩

/-- Witness for C4 at a concrete engine state: cached index 1, one
blocker, external POP to stored index 0. -/
theorem browser_blocked_pop_witness :
    (BrowserState.blockedPopTx
        ⟨Action.pop, some 1, ⟨['/', 'a'], [], [], none, 0⟩, 1, none⟩ = none) ∧
    (BrowserState.blockers
        ⟨Action.pop, some 1, ⟨['/', 'a'], [], [], none, 0⟩, 1, none⟩ ≠ 0) ∧
    (BrowserState.index
        ⟨Action.pop, some 1, ⟨['/', 'a'], [], [], none, 0⟩, 1, none⟩ =
      some 1) ∧
    ((0 : Int) ≠ 1) ∧
    ∃ tx,
      (handlePop ⟨Action.pop, some 1, ⟨['/', 'a'], [], [], none, 0⟩, 1, none⟩
        (some 0) ⟨['/', 'b'], [], [], none, 1⟩).goCalls = [1 - 0] ∧
      (handlePop ⟨Action.pop, some 1, ⟨['/', 'a'], [], [], none, 0⟩, 1, none⟩
        (some 0) ⟨['/', 'b'], [], [], none, 1⟩).blockerCalls = [] ∧
      (handlePop ⟨Action.pop, some 1, ⟨['/', 'a'], [], [], none, 0⟩, 1, none⟩
        (some 0) ⟨['/', 'b'], [], [], none, 1⟩).listenerCalls = [] ∧
      (handlePop ⟨Action.pop, some 1, ⟨['/', 'a'], [], [], none, 0⟩, 1, none⟩
        (some 0) ⟨['/', 'b'], [], [], none, 1⟩).state.blockedPopTx = some tx ∧
      tx.action = Action.pop ∧
      tx.location = ⟨['/', 'b'], [], [], none, 1⟩ ∧
      tx.retryDelta = -(1 - 0) ∧
      (handlePop ⟨Action.pop, some 1, ⟨['/', 'a'], [], [], none, 0⟩, 1, none⟩
        (some 0) ⟨['/', 'b'], [], [], none, 1⟩).state.index =
        BrowserState.index
          ⟨Action.pop, some 1, ⟨['/', 'a'], [], [], none, 0⟩, 1, none⟩ ∧
      (handlePop ⟨Action.pop, some 1, ⟨['/', 'a'], [], [], none, 0⟩, 1, none⟩
        (some 0) ⟨['/', 'b'], [], [], none, 1⟩).state.location =
        BrowserState.location
          ⟨Action.pop, some 1, ⟨['/', 'a'], [], [], none, 0⟩, 1, none⟩ ∧
      (handlePop ⟨Action.pop, some 1, ⟨['/', 'a'], [], [], none, 0⟩, 1, none⟩
        (some 0) ⟨['/', 'b'], [], [], none, 1⟩).state.action =
        BrowserState.action
          ⟨Action.pop, some 1, ⟨['/', 'a'], [], [], none, 0⟩, 1, none⟩ ∧
      ∀ ni2 nl2,
        (handlePop (handlePop
            ⟨Action.pop, some 1, ⟨['/', 'a'], [], [], none, 0⟩, 1, none⟩
            (some 0) ⟨['/', 'b'], [], [], none, 1⟩).state ni2
          nl2).blockerCalls = [tx] ∧
        (handlePop (handlePop
            ⟨Action.pop, some 1, ⟨['/', 'a'], [], [], none, 0⟩, 1, none⟩
            (some 0) ⟨['/', 'b'], [], [], none, 1⟩).state ni2
          nl2).listenerCalls = [] ∧
        (handlePop (handlePop
            ⟨Action.pop, some 1, ⟨['/', 'a'], [], [], none, 0⟩, 1, none⟩
            (some 0) ⟨['/', 'b'], [], [], none, 1⟩).state ni2
          nl2).goCalls = [] ∧
        (handlePop (handlePop
            ⟨Action.pop, some 1, ⟨['/', 'a'], [], [], none, 0⟩, 1, none⟩
            (some 0) ⟨['/', 'b'], [], [], none, 1⟩).state ni2
          nl2).state.blockedPopTx = none :=
  ⟨rfl, by decide, rfl, by decide,
    browser_blocked_pop
      ⟨Action.pop, some 1, ⟨['/', 'a'], [], [], none, 0⟩, 1, none⟩ 1 0
      ⟨['/', 'b'], [], [], none, 1⟩ rfl (by decide) rfl (by decide)⟩

end HistorySpec
